import Mathlib

/-!
Verification of the buddy physical-page allocator in `kernel/mem/buddy.c`.

The C code is shallowly embedded: the descriptor table `pages` becomes a
`List PageInfo` indexed by physical page number, the per-order intrusive
free lists become lists of page indices, and each C while-loop becomes a
structurally recursive function with an explicit fuel argument whose exit
tests are exactly the C loop conditions.  Every wrapper instantiates the
fuel at a value proven sufficient (see the fuel-stability lemmas), so the
fuel never truncates the loop.

The C loop condition in `buddy_find` is `order <= BUDDY_MAX_ORDER`, which
reads one entry past the `buddy_free_list` array.  The storage immediately
past the array is modelled explicitly as one extra list `oob` with
unconstrained contents, so that the out-of-bounds access is visible in the
model instead of being silently repaired.
-/

set_option maxRecDepth 10000
set_option synthInstance.maxSize 2000

/-- Size in bytes of a base physical page.  Modelled from the spec: the
diagnostic routine in the source shifts by `order + 12`, so a base page is
4096 bytes; the constant itself lives in a header that is not part of the
sources. -/
def PAGE_SIZE : Nat := 4096

/-- Modelled from the spec: buddy orders run from 0 to `BUDDY_MAX_ORDER - 1`
(source comment on `buddy_free_list`), and the huge page class is 2 MiB,
that is order 9, so `BUDDY_MAX_ORDER` is 10.  The constant lives in a
header that is not part of the sources. -/
def BUDDY_MAX_ORDER : Nat := 10

/-- Modelled from the spec: order of a 2 MiB huge page. -/
def BUDDY_2M_PAGE : Nat := 9

/-- Modelled from the spec: order of a base 4 KiB page. -/
def BUDDY_4K_PAGE : Nat := 0

/-- Modelled from the spec: flag bit requesting a zero-filled page. -/
def ALLOC_ZERO : Nat := 1

/-- Modelled from the spec: flag bit requesting a huge page. -/
def ALLOC_HUGE : Nat := 2

/-- The fields of `struct page_info` used by the allocator: the reference
count `pp_ref`, the recorded buddy order `pp_order` and the free flag
`pp_free`.  The intrusive node `pp_node` is represented by membership of
the page index in the free lists of `BuddyState`. -/
structure PageInfo where
  pp_ref : Nat
  pp_order : Nat
  pp_free : Bool
deriving DecidableEq, Repr

instance : Inhabited PageInfo := ⟨⟨0, 0, false⟩⟩

/-- The mutable state of the allocator: the descriptor table `pages`
(one entry per physical page, so `npages` is `pages.length`), the array
`buddy_free_list` of `BUDDY_MAX_ORDER` per-order free lists of page
indices, and `oob`, the storage immediately past that array, which the
out-of-bounds access in `buddy_find` reads and which is therefore part of
the model with unconstrained contents. -/
structure BuddyState where
  pages : List PageInfo
  buddy_free_list : List (List Nat)
  oob : List Nat
deriving DecidableEq, Repr

/-- `page2pa`: physical address of the page with the given index. -/
def page2pa (i : Nat) : Nat := i * PAGE_SIZE

/-- `pa2page`: page index of a physical address.  Modelled from the spec:
the translation performs no range check and silently mis-indexes on bad
input, so it is plain division. -/
def pa2page (pa : Nat) : Nat := pa / PAGE_SIZE

/-- Kernel virtual address of a page; the translation is a fixed offset,
taken to be zero here, so spans of bytes coincide with physical spans. -/
def page2kva (i : Nat) : Nat := page2pa i

/-- Reading `pages[i]`; out-of-range reads return the default descriptor. -/
def BuddyState.pageAt (s : BuddyState) (i : Nat) : PageInfo :=
  s.pages.getD i default

/-- Writing `pages[i]`; out-of-range writes are dropped. -/
def BuddyState.setPage (s : BuddyState) (i : Nat) (p : PageInfo) : BuddyState :=
  { s with pages := s.pages.set i p }

/-- Reading `buddy_free_list[k]`.  Index `BUDDY_MAX_ORDER` and above read
the modelled out-of-bounds cell. -/
def BuddyState.listAt (s : BuddyState) (k : Nat) : List Nat :=
  if k < BUDDY_MAX_ORDER then s.buddy_free_list.getD k [] else s.oob

/-- Writing `buddy_free_list[k]`; index `BUDDY_MAX_ORDER` and above write
the modelled out-of-bounds cell. -/
def BuddyState.setList (s : BuddyState) (k : Nat) (l : List Nat) : BuddyState :=
  if k < BUDDY_MAX_ORDER then
    { s with buddy_free_list := s.buddy_free_list.set k l }
  else
    { s with oob := l }

/-- `list_add`: push a node at the front of free list `k`.  Modelled from
the spec: the list helpers live in a header not in the sources; `list_add`
inserts right after the head. -/
def BuddyState.list_add (s : BuddyState) (k : Nat) (i : Nat) : BuddyState :=
  s.setList k (i :: s.listAt k)

/-- `list_del`: unlink a node from whatever list it is linked into.
Modelled from the spec: the helper lives in a header not in the sources;
it removes the node from the (unique) list holding it, so here the index
is removed from every list. -/
def BuddyState.list_del (s : BuddyState) (i : Nat) : BuddyState :=
  { s with
    buddy_free_list := s.buddy_free_list.map (List.filter (fun j => j != i)),
    oob := s.oob.filter (fun j => j != i) }

/-- One iteration of the `buddy_split` while-loop body: locate the buddy
at `pp_order - 1` by the XOR address computation, record the decremented
order on `lhs` (now not free) and on the buddy (now free), and push the
buddy into the free list at the decremented order, exactly as the C body
does. -/
def split_step (s : BuddyState) (lhs : Nat) : BuddyState :=
  let p := s.pageAt lhs
  let order := p.pp_order - 1
  let lhs_pa := page2pa lhs
  let buddy_pa := lhs_pa ^^^ (PAGE_SIZE <<< (p.pp_order - 1))
  let buddy := pa2page buddy_pa
  let s1 := s.setPage lhs { p with pp_order := order, pp_free := false }
  let s2 := s1.setPage buddy
    { s1.pageAt buddy with pp_order := order, pp_free := true }
  s2.list_add order buddy

/-- Short name for the buddy index produced by one split iteration. -/
def split_buddy (s : BuddyState) (lhs : Nat) : Nat :=
  pa2page (page2pa lhs ^^^ (PAGE_SIZE <<< ((s.pageAt lhs).pp_order - 1)))

/-- The while-loop of `buddy_split`, with fuel: iterate `split_step` while
the recorded order of `lhs` exceeds the requested order. -/
def buddy_split_loop : Nat → BuddyState → Nat → Nat → BuddyState × Nat
  | 0, s, lhs, _ => (s, lhs)
  | fuel + 1, s, lhs, req_order =>
    if req_order < (s.pageAt lhs).pp_order then
      buddy_split_loop fuel (split_step s lhs) lhs req_order
    else
      (s, lhs)

/-- `buddy_split`: the loop runs exactly `pp_order - req_order` times, so
the current order of `lhs` is a sufficient fuel (see
`buddy_split_loop_fuel_stable`). -/
def buddy_split (s : BuddyState) (lhs : Nat) (req_order : Nat) :
    BuddyState × Nat :=
  buddy_split_loop (s.pageAt lhs).pp_order s lhs req_order

/-- The buddy of `page` as `buddy_merge` computes it: XOR of the page
address by `PAGE_SIZE` shifted by the recorded order of `page`. -/
def merge_buddy (s : BuddyState) (page : Nat) : Nat :=
  pa2page (page2pa page ^^^ (PAGE_SIZE <<< (s.pageAt page).pp_order))

/-- One iteration of the `buddy_merge` while-loop body, taken when the
buddy is free with matching recorded order: unlink the buddy, let the
lower-addressed of the two pages survive, and record the incremented
order (not free yet) on both descriptors, exactly as the C body does.
Returns the new state and the surviving page. -/
def merge_step (s : BuddyState) (page : Nat) (order : Nat) : BuddyState × Nat :=
  let page_pa := page2pa page
  let buddy_pa := page_pa ^^^ (PAGE_SIZE <<< (s.pageAt page).pp_order)
  let buddy := pa2page buddy_pa
  let page' := if buddy_pa < page_pa then buddy else page
  let s1 := s.list_del buddy
  let order' := order + 1
  let s2 := s1.setPage buddy
    { s1.pageAt buddy with pp_order := order', pp_free := false }
  let s3 := s2.setPage page'
    { s2.pageAt page' with pp_order := order', pp_free := false }
  (s3, page')

/-- The while-loop of `buddy_merge`, with fuel: while the working order
is below `BUDDY_MAX_ORDER`, break when the buddy is not free or its
recorded order differs from the working order, otherwise take one
`merge_step` and continue at the incremented order. -/
def buddy_merge_loop : Nat → BuddyState → Nat → Nat → BuddyState × Nat
  | 0, s, page, _ => (s, page)
  | fuel + 1, s, page, order =>
    if order < BUDDY_MAX_ORDER then
      if (s.pageAt (merge_buddy s page)).pp_free = false
          ∨ (s.pageAt (merge_buddy s page)).pp_order ≠ order then
        (s, page)
      else
        buddy_merge_loop fuel (merge_step s page order).1 (merge_step s page order).2
          (order + 1)
    else
      (s, page)

/-- `buddy_merge`: the loop increments the working order by one per
iteration starting from the recorded order of `page` and exits at
`BUDDY_MAX_ORDER`, so `BUDDY_MAX_ORDER` iterations always suffice (see
`buddy_merge_loop_fuel_stable`).  After the loop the surviving page is
marked free and pushed into the free list at its final recorded order. -/
def buddy_merge (s : BuddyState) (page : Nat) : BuddyState × Nat :=
  let r := buddy_merge_loop BUDDY_MAX_ORDER s page (s.pageAt page).pp_order
  let s1 := r.1
  let pg := r.2
  let s2 := s1.setPage pg { s1.pageAt pg with pp_free := true }
  (s2.list_add (s2.pageAt pg).pp_order pg, pg)

/-- The for-loop of `buddy_find`, with fuel.  The C condition is
`order <= BUDDY_MAX_ORDER`, kept verbatim, so the last probed index is
`BUDDY_MAX_ORDER` itself, one past the valid orders: probing it reads the
modelled out-of-bounds cell.  A non-empty list is popped at the front and
the popped block is split when its order exceeds the request. -/
def buddy_find_loop : Nat → BuddyState → Nat → Nat → BuddyState × Option Nat
  | 0, s, _, _ => (s, none)
  | fuel + 1, s, order, req_order =>
    if order ≤ BUDDY_MAX_ORDER then
      match s.listAt order with
      | [] => buddy_find_loop fuel s (order + 1) req_order
      | node :: rest =>
        let s1 := s.setList order rest
        if req_order < order then
          let r := buddy_split s1 node req_order
          (r.1, some r.2)
        else
          (s1, some node)
    else
      (s, none)

/-- `buddy_find`: the loop visits at most the orders `req_order` through
`BUDDY_MAX_ORDER` and then exits, so `BUDDY_MAX_ORDER + 2` iterations
always suffice (see `buddy_find_loop_fuel_stable`). -/
def buddy_find (s : BuddyState) (req_order : Nat) : BuddyState × Option Nat :=
  buddy_find_loop (BUDDY_MAX_ORDER + 2) s req_order req_order

/-- Byte-addressed physical memory, for the zero-fill contract. -/
def Mem : Type := Nat → Nat

/-- `memset(start, val, len)` on the byte memory. -/
def memset (m : Mem) (start val len : Nat) : Mem :=
  fun a => if start ≤ a ∧ a < start + len then val else m a

/-- `page_alloc`: selects the huge or base order from the flags, calls
`buddy_find`, and on success optionally zero-fills
`PAGE_SIZE << pp_order` bytes starting at the kernel virtual address of
the returned page, exactly as the C body does.  The reference count is
not touched. -/
def page_alloc (s : BuddyState) (m : Mem) (alloc_flags : Nat) :
    BuddyState × Mem × Option Nat :=
  let order := if alloc_flags &&& ALLOC_HUGE ≠ 0 then BUDDY_2M_PAGE else BUDDY_4K_PAGE
  let r := buddy_find s order
  match r.2 with
  | none => (r.1, m, none)
  | some page =>
    if alloc_flags &&& ALLOC_ZERO ≠ 0 then
      (r.1, memset m (page2kva page) 0 (PAGE_SIZE <<< ((r.1).pageAt page).pp_order),
        some page)
    else
      (r.1, m, some page)

/-- `page_free`: delegates to `buddy_merge`; no check of the reference
count is performed. -/
def page_free (s : BuddyState) (pp : Nat) : BuddyState :=
  (buddy_merge s pp).1

/-- `page_decref`: `if (--pp->pp_ref == 0) page_free(pp);`.  Modelled from
the spec: the reference count field is an unsigned 16-bit counter living
in a header not in the sources, so the pre-decrement wraps modulo 2^16. -/
def page_decref (s : BuddyState) (pp : Nat) : BuddyState :=
  let p := s.pageAt pp
  let r := (p.pp_ref + 65535) % 65536
  let s1 := s.setPage pp { p with pp_ref := r }
  if r = 0 then page_free s1 pp else s1

/-- `count_free_pages`: length of the free list of one order, zero for an
out-of-range order, as in the C source. -/
def count_free_pages (s : BuddyState) (order : Nat) : Nat :=
  if order ≥ BUDDY_MAX_ORDER then 0 else (s.buddy_free_list.getD order []).length

/-- `count_total_free_pages`: free pages summed over all orders weighted
by 2^order, as in the C source. -/
def count_total_free_pages (s : BuddyState) : Nat :=
  (List.range BUDDY_MAX_ORDER).foldl
    (fun nfree order => nfree + count_free_pages s order * (1 <<< order)) 0

/-! ### Concrete states used in the theorems below -/

/-- The all-zero byte memory. -/
def mem0 : Mem := fun _ => 0

/-- One managed page, free at order 0 and linked into free list 0; a
state satisfying the free-list exactness invariant. -/
def stOnePage : BuddyState :=
  ⟨[⟨0, 0, true⟩], [[0], [], [], [], [], [], [], [], [], []], []⟩

/-- Every free list empty, nothing past the array. -/
def stBareA : BuddyState := ⟨[], List.replicate 10 [], []⟩

/-- Every free list empty, but the storage just past the free-list array
reads as a one-element list holding index 7. -/
def stBareB : BuddyState := ⟨[], List.replicate 10 [], [7]⟩

/-- Six managed pages, all allocated, every free list empty, and the
storage just past the free-list array reads as a list holding index 5. -/
def stGhost : BuddyState :=
  ⟨List.replicate 6 ⟨0, 0, false⟩, List.replicate 10 [], [5]⟩

/-- Four managed pages: pages 0 and 1 allocated (reference count 1), the
aligned pair {2,3} free as one order-1 block in free list 1; a state
satisfying the free-list exactness invariant. -/
def stPair : BuddyState :=
  ⟨[⟨1, 0, false⟩, ⟨1, 0, false⟩, ⟨0, 1, true⟩, ⟨0, 0, false⟩],
    [[], [2], [], [], [], [], [], [], [], []], []⟩

/-- Eight managed pages, all currently allocated with order 0, clear free
flags and empty free lists: the arena for the clean-release scenario. -/
def stArena : BuddyState :=
  ⟨List.replicate 8 ⟨0, 0, false⟩, List.replicate 10 [], []⟩

/-- Eight managed pages forming one free order-3 block at base 0, seeded
in free list 3: the initial state of scenario A. -/
def stSeed : BuddyState :=
  ⟨⟨0, 3, true⟩ :: List.replicate 7 ⟨0, 0, false⟩,
    [[], [], [], [0], [], [], [], [], [], []], []⟩

/-- One managed page whose reference count is already zero. -/
def stRefZero : BuddyState :=
  ⟨[⟨0, 0, false⟩], List.replicate 10 [], []⟩

/-- Four managed pages: pages 0 and 1 allocated (reference count 1),
page 2 free at order 0 in free list 0, page 3 allocated with reference
count 1; a state satisfying the free-list exactness invariant. -/
def stCons : BuddyState :=
  ⟨[⟨1, 0, false⟩, ⟨1, 0, false⟩, ⟨0, 0, true⟩, ⟨1, 0, false⟩],
    [[2], [], [], [], [], [], [], [], [], []], []⟩

/-- Two managed pages, page 0 allocated as one order-1 block (both pages),
free lists empty: input for the split witnesses. -/
def stBlock : BuddyState :=
  ⟨[⟨0, 1, false⟩, ⟨0, 0, false⟩], List.replicate 10 [], []⟩

/-! ### Basic list lemmas -/

theorem list_getD_set_self {α : Type} (l : List α) (i : Nat) (a d : α)
    (h : i < l.length) : (l.set i a).getD i d = a := by
  simp [List.getD_eq_getElem?_getD, List.getElem?_set_self', h]

theorem list_getD_set_ne {α : Type} (l : List α) (i j : Nat) (a d : α)
    (h : i ≠ j) : (l.set i a).getD j d = l.getD j d := by
  simp [List.getD_eq_getElem?_getD, List.getElem?_set_ne h]

theorem list_getD_of_le {α : Type} (l : List α) (i : Nat) (d : α)
    (h : l.length ≤ i) : l.getD i d = d := by
  simp [List.getD_eq_getElem?_getD, List.getElem?_eq_none h]

/-! ### Address arithmetic lemmas -/

theorem mul_two_pow_xor (a b n : Nat) :
    (a * 2 ^ n) ^^^ (b * 2 ^ n) = (a ^^^ b) * 2 ^ n := by
  rw [← Nat.shiftLeft_eq a n, ← Nat.shiftLeft_eq b n, ← Nat.shiftLeft_eq (a ^^^ b) n]
  apply Nat.eq_of_testBit_eq
  intro i
  simp [Nat.testBit_xor, Nat.testBit_shiftLeft]
  by_cases h : n ≤ i <;> simp [h]

theorem two_mul_xor_one (m : Nat) : (2 * m) ^^^ 1 = 2 * m + 1 := by
  apply Nat.eq_of_testBit_eq
  intro i
  cases i with
  | zero =>
    rw [Nat.testBit_xor]
    simp [Nat.testBit_zero]
    omega
  | succ n =>
    rw [Nat.testBit_xor, Nat.testBit_succ, Nat.testBit_succ, Nat.testBit_succ]
    have h1 : 2 * m / 2 = m := by omega
    have h2 : (2 * m + 1) / 2 = m := by omega
    have h3 : 1 / 2 = 0 := by omega
    rw [h1, h2, h3]
    simp

/-- A number divisible by the next power of two has a clear bit at
position `j`, so the XOR adds the power. -/
theorem xor_two_pow_of_dvd (j i : Nat) (h : 2 ^ (j + 1) ∣ i) :
    i ^^^ 2 ^ j = i + 2 ^ j := by
  obtain ⟨m, rfl⟩ := h
  have e1 : 2 ^ (j + 1) * m = 2 * m * 2 ^ j := by ring
  rw [e1]
  have step := mul_two_pow_xor (2 * m) 1 j
  rw [one_mul] at step
  rw [step, two_mul_xor_one]
  ring

theorem xor_two_pow_ne (i k : Nat) : i ^^^ 2 ^ k ≠ i := by
  intro h
  have := congrArg (fun x => x ^^^ i) h
  simp [Nat.xor_comm, ← Nat.xor_assoc] at this

theorem page_size_eq : PAGE_SIZE = 2 ^ 12 := by norm_num [PAGE_SIZE]

/-- The C buddy-address computation, pushed down to page indices: XOR of
the address by `PAGE_SIZE << k` is XOR of the index by `2 ^ k`. -/
theorem page2pa_xor_shift (i k : Nat) :
    page2pa i ^^^ (PAGE_SIZE <<< k) = page2pa (i ^^^ 2 ^ k) := by
  unfold page2pa
  rw [page_size_eq, Nat.shiftLeft_eq]
  have e : (2 ^ 12 : Nat) * 2 ^ k = 2 ^ k * 2 ^ 12 := by ring
  rw [e]
  exact mul_two_pow_xor i (2 ^ k) 12

theorem pa2page_page2pa (i : Nat) : pa2page (page2pa i) = i := by
  unfold pa2page page2pa
  exact Nat.mul_div_cancel i (by norm_num [PAGE_SIZE])

/-- Page index of the buddy address. -/
theorem pa2page_buddy (i k : Nat) :
    pa2page (page2pa i ^^^ (PAGE_SIZE <<< k)) = i ^^^ 2 ^ k := by
  rw [page2pa_xor_shift, pa2page_page2pa]

theorem buddy_index_ne (i k : Nat) :
    pa2page (page2pa i ^^^ (PAGE_SIZE <<< k)) ≠ i := by
  rw [pa2page_buddy]
  exact xor_two_pow_ne i k

theorem page2pa_lt_iff (a b : Nat) : page2pa a < page2pa b ↔ a < b := by
  unfold page2pa
  constructor
  · intro h
    by_contra hc
    have : b * PAGE_SIZE ≤ a * PAGE_SIZE := Nat.mul_le_mul_right _ (by omega)
    omega
  · intro h
    exact (Nat.mul_lt_mul_right (by norm_num [PAGE_SIZE] : 0 < PAGE_SIZE)).mpr h

/-! ### State accessor lemmas -/

theorem pageAt_setPage (s : BuddyState) (i j : Nat) (p : PageInfo) :
    (s.setPage i p).pageAt j =
      if i = j ∧ i < s.pages.length then p else s.pageAt j := by
  unfold BuddyState.setPage BuddyState.pageAt
  by_cases h1 : i = j
  · subst h1
    by_cases h2 : i < s.pages.length
    · rw [if_pos (And.intro rfl h2)]
      exact list_getD_set_self _ _ _ _ h2
    · rw [if_neg (by tauto)]
      have hl : s.pages.length ≤ i := Nat.le_of_not_lt h2
      rw [list_getD_of_le _ _ _ (by simpa using hl), list_getD_of_le _ _ _ hl]
  · rw [if_neg (by tauto)]
    exact list_getD_set_ne _ _ _ _ _ h1

theorem length_setPage (s : BuddyState) (i : Nat) (p : PageInfo) :
    (s.setPage i p).pages.length = s.pages.length := by
  simp [BuddyState.setPage]

theorem pageAt_setList (s : BuddyState) (k : Nat) (l : List Nat) (i : Nat) :
    (s.setList k l).pageAt i = s.pageAt i := by
  unfold BuddyState.setList BuddyState.pageAt
  by_cases h : k < BUDDY_MAX_ORDER <;> simp [h]

theorem pageAt_list_add (s : BuddyState) (k j i : Nat) :
    (s.list_add k j).pageAt i = s.pageAt i := pageAt_setList s k _ i

theorem pageAt_list_del (s : BuddyState) (j i : Nat) :
    (s.list_del j).pageAt i = s.pageAt i := rfl

theorem length_setList (s : BuddyState) (k : Nat) (l : List Nat) :
    (s.setList k l).pages.length = s.pages.length := by
  unfold BuddyState.setList
  by_cases h : k < BUDDY_MAX_ORDER <;> simp [h]

theorem length_list_add (s : BuddyState) (k j : Nat) :
    (s.list_add k j).pages.length = s.pages.length := length_setList s k _

theorem length_list_del (s : BuddyState) (j : Nat) :
    (s.list_del j).pages.length = s.pages.length := rfl

theorem flLength_setList (s : BuddyState) (k : Nat) (l : List Nat) :
    (s.setList k l).buddy_free_list.length = s.buddy_free_list.length := by
  unfold BuddyState.setList
  by_cases h : k < BUDDY_MAX_ORDER <;> simp [h]

theorem flLength_list_add (s : BuddyState) (k j : Nat) :
    (s.list_add k j).buddy_free_list.length = s.buddy_free_list.length :=
  flLength_setList s k _

theorem flLength_list_del (s : BuddyState) (j : Nat) :
    (s.list_del j).buddy_free_list.length = s.buddy_free_list.length := by
  simp [BuddyState.list_del]

theorem flLength_setPage (s : BuddyState) (i : Nat) (p : PageInfo) :
    (s.setPage i p).buddy_free_list.length = s.buddy_free_list.length := rfl

theorem listAt_setPage (s : BuddyState) (i : Nat) (p : PageInfo) (k : Nat) :
    (s.setPage i p).listAt k = s.listAt k := rfl

/-- Writing list `k` and reading it back gives the written value, as soon
as the free-list array has its full length or the write lands in the
out-of-bounds cell. -/
theorem listAt_setList_self (s : BuddyState) (k : Nat) (l : List Nat)
    (h : k < s.buddy_free_list.length ∨ BUDDY_MAX_ORDER ≤ k) :
    (s.setList k l).listAt k = l := by
  unfold BuddyState.setList BuddyState.listAt
  by_cases hk : k < BUDDY_MAX_ORDER
  · have hlen : k < s.buddy_free_list.length := by
      rcases h with h | h
      · exact h
      · omega
    simp only [hk, if_pos hk]
    exact list_getD_set_self _ _ _ _ hlen
  · simp [hk]

theorem listAt_setList_ne (s : BuddyState) (k k' : Nat) (l : List Nat)
    (hne : k ≠ k') (hlt : k < BUDDY_MAX_ORDER ∨ k' < BUDDY_MAX_ORDER) :
    (s.setList k l).listAt k' = s.listAt k' := by
  unfold BuddyState.setList BuddyState.listAt
  by_cases hk : k < BUDDY_MAX_ORDER
  · by_cases hk' : k' < BUDDY_MAX_ORDER
    · simp only [hk, hk', if_pos hk']
      exact list_getD_set_ne _ _ _ _ _ hne
    · simp [hk, hk']
  · by_cases hk' : k' < BUDDY_MAX_ORDER
    · simp [hk, hk']
    · exfalso
      rcases hlt with h | h
      · exact hk h
      · exact hk' h

/-! ### Facts about one split iteration -/

theorem split_step_pages_length (s : BuddyState) (lhs : Nat) :
    (split_step s lhs).pages.length = s.pages.length := by
  unfold split_step
  rw [length_list_add, length_setPage, length_setPage]

theorem split_step_flLength (s : BuddyState) (lhs : Nat) :
    (split_step s lhs).buddy_free_list.length = s.buddy_free_list.length := by
  unfold split_step
  rw [flLength_list_add, flLength_setPage, flLength_setPage]

theorem split_buddy_ne (s : BuddyState) (lhs : Nat) : split_buddy s lhs ≠ lhs :=
  buddy_index_ne lhs _

theorem split_step_pageAt_lhs (s : BuddyState) (lhs : Nat)
    (h : lhs < s.pages.length) :
    (split_step s lhs).pageAt lhs =
      { s.pageAt lhs with pp_order := (s.pageAt lhs).pp_order - 1, pp_free := false } := by
  unfold split_step
  rw [pageAt_list_add, pageAt_setPage]
  rw [if_neg (by
    intro hh
    exact split_buddy_ne s lhs hh.1)]
  rw [pageAt_setPage, if_pos (And.intro rfl h)]

theorem split_step_pageAt_ref (s : BuddyState) (lhs i : Nat) :
    ((split_step s lhs).pageAt i).pp_ref = (s.pageAt i).pp_ref := by
  unfold split_step
  rw [pageAt_list_add, pageAt_setPage]
  split_ifs with h1
  · rw [← h1.1, pageAt_setPage]
    split_ifs with h2
    · rw [← h2.1]
    · rfl
  · rw [pageAt_setPage]
    split_ifs with h2
    · rw [← h2.1]
    · rfl

/-- Reading any free list after `list_add` gives either the old list or
the old list with the new node at the front. -/
theorem listAt_list_add_cases (s : BuddyState) (k j k' : Nat) :
    (s.list_add k j).listAt k' = s.listAt k'
      ∨ (s.list_add k j).listAt k' = j :: s.listAt k' := by
  unfold BuddyState.list_add BuddyState.setList BuddyState.listAt
  by_cases hk : k < BUDDY_MAX_ORDER
  · by_cases hk' : k' < BUDDY_MAX_ORDER
    · simp only [hk, hk', if_pos, if_true]
      by_cases hkk : k = k'
      · subst hkk
        by_cases hlen : k < s.buddy_free_list.length
        · right
          rw [list_getD_set_self _ _ _ _ hlen]
        · left
          have hle : s.buddy_free_list.length ≤ k := Nat.le_of_not_lt hlen
          rw [list_getD_of_le _ _ _ (by simpa using hle), list_getD_of_le _ _ _ hle]
      · left
        exact list_getD_set_ne _ _ _ _ _ hkk
    · simp [hk, hk']
  · by_cases hk' : k' < BUDDY_MAX_ORDER
    · simp [hk, hk']
    · simp [hk, hk']

theorem notMem_listAt_list_add (s : BuddyState) (k j k' x : Nat) (hxj : x ≠ j)
    (h : x ∉ s.listAt k') : x ∉ (s.list_add k j).listAt k' := by
  rcases listAt_list_add_cases s k j k' with hc | hc <;> rw [hc]
  · exact h
  · intro hm
    rcases List.mem_cons.mp hm with hm | hm
    · exact hxj hm
    · exact h hm

theorem listAt_split_step_notMem (s : BuddyState) (lhs k x : Nat)
    (hx : x ≠ split_buddy s lhs) (h : x ∉ s.listAt k) :
    x ∉ (split_step s lhs).listAt k := by
  unfold split_step
  exact notMem_listAt_list_add _ _ _ _ _ hx (by
    rw [show (s.setPage lhs
        { s.pageAt lhs with pp_order := (s.pageAt lhs).pp_order - 1, pp_free := false }).setPage
        (pa2page (page2pa lhs ^^^ (PAGE_SIZE <<< ((s.pageAt lhs).pp_order - 1))))
        _ = _ from rfl]
    exact h)

theorem pp_order_pos_lt_length (s : BuddyState) (i : Nat)
    (h : 0 < (s.pageAt i).pp_order) : i < s.pages.length := by
  by_contra hc
  have hd : s.pageAt i = default :=
    list_getD_of_le _ _ _ (Nat.le_of_not_lt hc)
  have : (default : PageInfo).pp_order = 0 := rfl
  rw [hd, this] at h
  omega

/-! ### Fuel stability: the wrappers give the loops enough fuel -/

theorem buddy_split_loop_congr : ∀ (f1 f2 : Nat) (s : BuddyState) (lhs req : Nat),
    (s.pageAt lhs).pp_order ≤ req + f1 → (s.pageAt lhs).pp_order ≤ req + f2 →
    buddy_split_loop f1 s lhs req = buddy_split_loop f2 s lhs req := by
  intro f1
  induction f1 with
  | zero =>
    intro f2 s lhs req h1 h2
    cases f2 with
    | zero => rfl
    | succ f2 =>
      show (s, lhs) = buddy_split_loop (f2 + 1) s lhs req
      simp only [buddy_split_loop]
      rw [if_neg (by omega)]
  | succ f1 ih =>
    intro f2 s lhs req h1 h2
    cases f2 with
    | zero =>
      show buddy_split_loop (f1 + 1) s lhs req = (s, lhs)
      simp only [buddy_split_loop]
      rw [if_neg (by omega)]
    | succ f2 =>
      simp only [buddy_split_loop]
      by_cases hc : req < (s.pageAt lhs).pp_order
      · rw [if_pos hc, if_pos hc]
        have hlen : lhs < s.pages.length :=
          pp_order_pos_lt_length s lhs (by omega)
        have hstep : ((split_step s lhs).pageAt lhs).pp_order =
            (s.pageAt lhs).pp_order - 1 := by
          rw [split_step_pageAt_lhs s lhs hlen]
        apply ih
        · rw [hstep]; omega
        · rw [hstep]; omega
      · rw [if_neg hc, if_neg hc]

/-- Any fuel at least the current recorded order gives the same result,
so the fuel chosen by `buddy_split` never truncates the C loop. -/
theorem buddy_split_loop_fuel_stable (s : BuddyState) (lhs req extra : Nat) :
    buddy_split_loop ((s.pageAt lhs).pp_order + extra) s lhs req =
      buddy_split s lhs req := by
  unfold buddy_split
  apply buddy_split_loop_congr <;> omega

theorem buddy_merge_loop_congr : ∀ (f1 f2 : Nat) (s : BuddyState) (page order : Nat),
    BUDDY_MAX_ORDER ≤ order + f1 → BUDDY_MAX_ORDER ≤ order + f2 →
    buddy_merge_loop f1 s page order = buddy_merge_loop f2 s page order := by
  intro f1
  induction f1 with
  | zero =>
    intro f2 s page order h1 h2
    cases f2 with
    | zero => rfl
    | succ f2 =>
      show (s, page) = buddy_merge_loop (f2 + 1) s page order
      simp only [buddy_merge_loop]
      rw [if_neg (by omega)]
  | succ f1 ih =>
    intro f2 s page order h1 h2
    cases f2 with
    | zero =>
      show buddy_merge_loop (f1 + 1) s page order = (s, page)
      simp only [buddy_merge_loop]
      rw [if_neg (by omega)]
    | succ f2 =>
      simp only [buddy_merge_loop]
      by_cases hc : order < BUDDY_MAX_ORDER
      · rw [if_pos hc, if_pos hc]
        by_cases hg : (s.pageAt (merge_buddy s page)).pp_free = false
            ∨ (s.pageAt (merge_buddy s page)).pp_order ≠ order
        · rw [if_pos hg, if_pos hg]
        · rw [if_neg hg, if_neg hg]
          exact ih f2 _ _ (order + 1) (by omega) (by omega)
      · rw [if_neg hc, if_neg hc]

/-- `BUDDY_MAX_ORDER` iterations always suffice for the merge loop: the
working order increases by one each iteration and the loop exits at
`BUDDY_MAX_ORDER`. -/
theorem buddy_merge_loop_fuel_stable (s : BuddyState) (page order extra : Nat) :
    buddy_merge_loop (BUDDY_MAX_ORDER + extra) s page order =
      buddy_merge_loop BUDDY_MAX_ORDER s page order := by
  apply buddy_merge_loop_congr <;> omega

theorem buddy_find_loop_congr : ∀ (f1 f2 : Nat) (s : BuddyState) (order req : Nat),
    BUDDY_MAX_ORDER + 2 ≤ order + f1 → BUDDY_MAX_ORDER + 2 ≤ order + f2 →
    buddy_find_loop f1 s order req = buddy_find_loop f2 s order req := by
  intro f1
  induction f1 with
  | zero =>
    intro f2 s order req h1 h2
    cases f2 with
    | zero => rfl
    | succ f2 =>
      show (s, none) = buddy_find_loop (f2 + 1) s order req
      simp only [buddy_find_loop]
      rw [if_neg (by omega)]
  | succ f1 ih =>
    intro f2 s order req h1 h2
    cases f2 with
    | zero =>
      show buddy_find_loop (f1 + 1) s order req = (s, none)
      simp only [buddy_find_loop]
      rw [if_neg (by omega)]
    | succ f2 =>
      simp only [buddy_find_loop]
      by_cases hc : order ≤ BUDDY_MAX_ORDER
      · rw [if_pos hc, if_pos hc]
        cases hl : s.listAt order with
        | nil =>
          simp only [hl]
          exact ih f2 s (order + 1) req (by omega) (by omega)
        | cons node rest =>
          simp only [hl]
      · rw [if_neg hc, if_neg hc]

/-- `BUDDY_MAX_ORDER + 2` iterations always suffice for the search loop:
it visits at most the orders `req_order` through `BUDDY_MAX_ORDER` and
then one final bound check. -/
theorem buddy_find_loop_fuel_stable (s : BuddyState) (req extra : Nat) :
    buddy_find_loop (BUDDY_MAX_ORDER + 2 + extra) s req req =
      buddy_find s req := by
  unfold buddy_find
  apply buddy_find_loop_congr <;> omega

/-! ### The split loop: main behavior -/

theorem split_step_listAt_self (s : BuddyState) (lhs : Nat)
    (hwf : s.buddy_free_list.length = BUDDY_MAX_ORDER)
    (horder : (s.pageAt lhs).pp_order - 1 < BUDDY_MAX_ORDER) :
    (split_step s lhs).listAt ((s.pageAt lhs).pp_order - 1) =
      split_buddy s lhs :: s.listAt ((s.pageAt lhs).pp_order - 1) := by
  unfold split_step BuddyState.list_add
  rw [listAt_setList_self _ _ _ (Or.inl (by rw [flLength_setPage, flLength_setPage, hwf]; exact horder))]
  rfl

theorem split_step_listAt_ne (s : BuddyState) (lhs k : Nat)
    (hk : k ≠ (s.pageAt lhs).pp_order - 1)
    (horder : (s.pageAt lhs).pp_order - 1 < BUDDY_MAX_ORDER) :
    (split_step s lhs).listAt k = s.listAt k := by
  unfold split_step BuddyState.list_add
  rw [listAt_setList_ne _ _ _ _ (fun hh => hk hh.symm) (Or.inl horder)]
  rfl

theorem buddy_split_loop_snd : ∀ (fuel : Nat) (s : BuddyState) (lhs req : Nat),
    (buddy_split_loop fuel s lhs req).2 = lhs := by
  intro fuel
  induction fuel with
  | zero => intro s lhs req; rfl
  | succ fuel ih =>
    intro s lhs req
    simp only [buddy_split_loop]
    by_cases hc : req < (s.pageAt lhs).pp_order
    · rw [if_pos hc]
      exact ih _ lhs req
    · rw [if_neg hc]

theorem buddy_split_loop_main : ∀ (fuel : Nat) (s : BuddyState) (lhs req : Nat),
    (s.pageAt lhs).pp_order ≤ req + fuel →
    req ≤ (s.pageAt lhs).pp_order →
    ((buddy_split_loop fuel s lhs req).1).pages.length = s.pages.length
    ∧ (((buddy_split_loop fuel s lhs req).1).pageAt lhs).pp_order = req
    ∧ (req < (s.pageAt lhs).pp_order →
        (((buddy_split_loop fuel s lhs req).1).pageAt lhs).pp_free = false)
    ∧ (req = (s.pageAt lhs).pp_order → (buddy_split_loop fuel s lhs req).1 = s)
    ∧ (∀ k, lhs ∉ s.listAt k → lhs ∉ ((buddy_split_loop fuel s lhs req).1).listAt k) := by
  intro fuel
  induction fuel with
  | zero =>
    intro s lhs req h1 h2
    have heq : (s.pageAt lhs).pp_order = req := by omega
    refine ⟨rfl, heq, ?_, fun _ => rfl, fun k h => h⟩
    intro hlt
    omega
  | succ fuel ih =>
    intro s lhs req h1 h2
    by_cases hc : req < (s.pageAt lhs).pp_order
    · have hlen : lhs < s.pages.length :=
        pp_order_pos_lt_length s lhs (by omega)
      have hstep := split_step_pageAt_lhs s lhs hlen
      have hord3 : ((split_step s lhs).pageAt lhs).pp_order =
          (s.pageAt lhs).pp_order - 1 := by rw [hstep]
      have hrec : buddy_split_loop (fuel + 1) s lhs req =
          buddy_split_loop fuel (split_step s lhs) lhs req := by
        simp only [buddy_split_loop]
        rw [if_pos hc]
      obtain ⟨ihlen, ihord, ihfree, iheq, ihmem⟩ :=
        ih (split_step s lhs) lhs req (by rw [hord3]; omega) (by rw [hord3]; omega)
      rw [hrec]
      refine ⟨by rw [ihlen, split_step_pages_length], ihord, ?_, ?_, ?_⟩
      · intro _
        rcases Nat.eq_or_lt_of_le (show req ≤ (s.pageAt lhs).pp_order - 1 by omega)
          with heq3 | hlt3
        · have := iheq (by rw [hord3, ← heq3])
          rw [this, hstep]
        · exact ihfree (by rw [hord3]; omega)
      · intro heq0
        omega
      · intro k hk
        apply ihmem
        exact listAt_split_step_notMem s lhs k lhs
          (fun hh => (split_buddy_ne s lhs) hh.symm) hk
    · have heq : req = (s.pageAt lhs).pp_order := by omega
      have hrec : buddy_split_loop (fuel + 1) s lhs req = (s, lhs) := by
        simp only [buddy_split_loop]
        rw [if_neg hc]
      rw [hrec]
      exact ⟨rfl, heq.symm, fun hlt => absurd hlt hc, fun _ => rfl, fun k h => h⟩

/-! ### The split loop: effect on the free lists for an aligned block -/

theorem buddy_split_loop_lists : ∀ (fuel : Nat) (s : BuddyState) (lhs req : Nat),
    (s.pageAt lhs).pp_order ≤ req + fuel →
    req ≤ (s.pageAt lhs).pp_order →
    (s.pageAt lhs).pp_order ≤ BUDDY_MAX_ORDER →
    s.buddy_free_list.length = BUDDY_MAX_ORDER →
    2 ^ (s.pageAt lhs).pp_order ∣ lhs →
    (∀ j, req ≤ j → j < (s.pageAt lhs).pp_order →
       ((buddy_split_loop fuel s lhs req).1).listAt j = (lhs + 2 ^ j) :: s.listAt j)
    ∧ (∀ j, j < req ∨ (s.pageAt lhs).pp_order ≤ j →
       ((buddy_split_loop fuel s lhs req).1).listAt j = s.listAt j) := by
  intro fuel
  induction fuel with
  | zero =>
    intro s lhs req h1 h2 _ _ _
    constructor
    · intro j hj1 hj2
      omega
    · intro j _
      rfl
  | succ fuel ih =>
    intro s lhs req h1 h2 hmax hwf hdvd
    by_cases hc : req < (s.pageAt lhs).pp_order
    · have hlen : lhs < s.pages.length :=
        pp_order_pos_lt_length s lhs (by omega)
      have hstep := split_step_pageAt_lhs s lhs hlen
      have hord3 : ((split_step s lhs).pageAt lhs).pp_order =
          (s.pageAt lhs).pp_order - 1 := by rw [hstep]
      have hom : (s.pageAt lhs).pp_order - 1 < BUDDY_MAX_ORDER := by omega
      have hbud : split_buddy s lhs = lhs + 2 ^ ((s.pageAt lhs).pp_order - 1) := by
        unfold split_buddy
        rw [pa2page_buddy]
        have hd : 2 ^ (((s.pageAt lhs).pp_order - 1) + 1) ∣ lhs := by
          have he : ((s.pageAt lhs).pp_order - 1) + 1 = (s.pageAt lhs).pp_order := by
            omega
          rw [he]
          exact hdvd
        exact xor_two_pow_of_dvd _ lhs hd
      have hrec : buddy_split_loop (fuel + 1) s lhs req =
          buddy_split_loop fuel (split_step s lhs) lhs req := by
        simp only [buddy_split_loop]
        rw [if_pos hc]
      obtain ⟨ihmod, ihun⟩ := ih (split_step s lhs) lhs req
        (by rw [hord3]; omega) (by rw [hord3]; omega) (by rw [hord3]; omega)
        (by rw [split_step_flLength]; exact hwf)
        (by rw [hord3]; exact dvd_trans (pow_dvd_pow 2 (by omega)) hdvd)
      rw [hrec]
      constructor
      · intro j hj1 hj2
        rcases Nat.eq_or_lt_of_le (show j ≤ (s.pageAt lhs).pp_order - 1 by omega)
          with heqj | hltj
        · rw [ihun j (Or.inr (by rw [hord3]; omega))]
          rw [heqj]
          rw [split_step_listAt_self s lhs hwf hom, hbud]
        · rw [ihmod j hj1 (by rw [hord3]; omega)]
          rw [split_step_listAt_ne s lhs j (by omega) hom]
      · intro j hj
        rw [ihun j (by rw [hord3]; omega)]
        rcases hj with hj | hj
        · rw [split_step_listAt_ne s lhs j (by omega) hom]
        · rw [split_step_listAt_ne s lhs j (by omega) hom]
    · have hrec : buddy_split_loop (fuel + 1) s lhs req = (s, lhs) := by
        simp only [buddy_split_loop]
        rw [if_neg hc]
      rw [hrec]
      constructor
      · intro j hj1 hj2
        omega
      · intro j _
        rfl

/-! ### Reference counts are never touched by split and find -/

theorem buddy_split_loop_ref : ∀ (fuel : Nat) (s : BuddyState) (lhs req i : Nat),
    (((buddy_split_loop fuel s lhs req).1).pageAt i).pp_ref = (s.pageAt i).pp_ref := by
  intro fuel
  induction fuel with
  | zero => intro s lhs req i; rfl
  | succ fuel ih =>
    intro s lhs req i
    simp only [buddy_split_loop]
    by_cases hc : req < (s.pageAt lhs).pp_order
    · rw [if_pos hc, ih, split_step_pageAt_ref]
    · rw [if_neg hc]

theorem buddy_split_ref (s : BuddyState) (lhs req i : Nat) :
    (((buddy_split s lhs req).1).pageAt i).pp_ref = (s.pageAt i).pp_ref :=
  buddy_split_loop_ref _ s lhs req i

theorem buddy_find_loop_ref : ∀ (fuel : Nat) (s : BuddyState) (order req i : Nat),
    (((buddy_find_loop fuel s order req).1).pageAt i).pp_ref = (s.pageAt i).pp_ref := by
  intro fuel
  induction fuel with
  | zero => intro s order req i; rfl
  | succ fuel ih =>
    intro s order req i
    simp only [buddy_find_loop]
    by_cases hc : order ≤ BUDDY_MAX_ORDER
    · rw [if_pos hc]
      cases hl : s.listAt order with
      | nil =>
        simp only
        exact ih s (order + 1) req i
      | cons node rest =>
        simp only
        by_cases hr : req < order
        · rw [if_pos hr]
          simp only
          rw [buddy_split_ref, pageAt_setList]
        · rw [if_neg hr]
          simp only
          rw [pageAt_setList]
    · rw [if_neg hc]

theorem buddy_find_ref (s : BuddyState) (req i : Nat) :
    (((buddy_find s req).1).pageAt i).pp_ref = (s.pageAt i).pp_ref :=
  buddy_find_loop_ref _ s req req i

/-! ### An exhausted search leaves the state untouched -/

theorem buddy_find_loop_none : ∀ (fuel : Nat) (s : BuddyState) (order req : Nat),
    (buddy_find_loop fuel s order req).2 = none →
    (buddy_find_loop fuel s order req).1 = s := by
  intro fuel
  induction fuel with
  | zero => intro s order req _; rfl
  | succ fuel ih =>
    intro s order req hnone
    simp only [buddy_find_loop] at hnone ⊢
    by_cases hc : order ≤ BUDDY_MAX_ORDER
    · rw [if_pos hc] at hnone ⊢
      cases hl : s.listAt order with
      | nil =>
        simp only [hl] at hnone ⊢
        exact ih s (order + 1) req hnone
      | cons node rest =>
        exfalso
        simp only [hl] at hnone
        by_cases hr : req < order
        · rw [if_pos hr] at hnone
          simp at hnone
        · rw [if_neg hr] at hnone
          simp at hnone
    · rw [if_neg hc] at hnone ⊢

/-! ### The merge loop: lengths and the surviving page -/

theorem merge_step_pages_length (s : BuddyState) (page order : Nat) :
    ((merge_step s page order).1).pages.length = s.pages.length := by
  simp only [merge_step]
  rw [length_setPage, length_setPage, length_list_del]

theorem merge_step_flLength (s : BuddyState) (page order : Nat) :
    ((merge_step s page order).1).buddy_free_list.length =
      s.buddy_free_list.length := by
  simp only [merge_step]
  rw [flLength_setPage, flLength_setPage, flLength_list_del]

theorem merge_step_snd_le (s : BuddyState) (page order : Nat) :
    (merge_step s page order).2 ≤ page := by
  simp only [merge_step]
  by_cases hb : (page2pa page ^^^ (PAGE_SIZE <<< (s.pageAt page).pp_order)) < page2pa page
  · rw [if_pos hb]
    rw [pa2page_buddy page ((s.pageAt page).pp_order)]
    rw [page2pa_xor_shift] at hb
    exact Nat.le_of_lt ((page2pa_lt_iff _ _).mp hb)
  · rw [if_neg hb]

theorem buddy_merge_loop_len_wf : ∀ (fuel : Nat) (s : BuddyState) (page order : Nat),
    ((buddy_merge_loop fuel s page order).1).pages.length = s.pages.length
    ∧ ((buddy_merge_loop fuel s page order).1).buddy_free_list.length =
        s.buddy_free_list.length
    ∧ (buddy_merge_loop fuel s page order).2 ≤ page := by
  intro fuel
  induction fuel with
  | zero => intro s page order; exact ⟨rfl, rfl, Nat.le_refl _⟩
  | succ fuel ih =>
    intro s page order
    simp only [buddy_merge_loop]
    by_cases hc : order < BUDDY_MAX_ORDER
    · rw [if_pos hc]
      by_cases hg : (s.pageAt (merge_buddy s page)).pp_free = false
          ∨ (s.pageAt (merge_buddy s page)).pp_order ≠ order
      · rw [if_pos hg]
        exact ⟨rfl, rfl, Nat.le_refl _⟩
      · rw [if_neg hg]
        obtain ⟨ih1, ih2, ih3⟩ :=
          ih (merge_step s page order).1 (merge_step s page order).2 (order + 1)
        refine ⟨?_, ?_, ?_⟩
        · rw [ih1, merge_step_pages_length]
        · rw [ih2, merge_step_flLength]
        · exact Nat.le_trans ih3 (merge_step_snd_le s page order)
    · rw [if_neg hc]
      exact ⟨rfl, rfl, Nat.le_refl _⟩

/-- Once the working order has reached `BUDDY_MAX_ORDER`, the merge loop
exits immediately. -/
theorem buddy_merge_loop_exit (fuel : Nat) (s : BuddyState) (page order : Nat)
    (h : BUDDY_MAX_ORDER ≤ order) :
    buddy_merge_loop fuel s page order = (s, page) := by
  cases fuel with
  | zero => rfl
  | succ fuel =>
    simp only [buddy_merge_loop]
    rw [if_neg (by omega)]

/-- After `buddy_merge`, the surviving page is marked free and sits in
the free list indexed by its final recorded order. -/
theorem buddy_merge_result_free_listed (s : BuddyState) (page : Nat)
    (hlen : page < s.pages.length)
    (hwf : s.buddy_free_list.length = BUDDY_MAX_ORDER) :
    (((buddy_merge s page).1).pageAt (buddy_merge s page).2).pp_free = true
    ∧ (buddy_merge s page).2 ∈
        ((buddy_merge s page).1).listAt
          ((((buddy_merge s page).1).pageAt (buddy_merge s page).2).pp_order) := by
  obtain ⟨hl1, hl2, hq⟩ :=
    buddy_merge_loop_len_wf BUDDY_MAX_ORDER s page ((s.pageAt page).pp_order)
  simp only [buddy_merge]
  set r := buddy_merge_loop BUDDY_MAX_ORDER s page ((s.pageAt page).pp_order) with hr
  have hqlen : r.2 < (r.1).pages.length := by
    rw [hl1]
    omega
  have hps : ((r.1.setPage r.2 { r.1.pageAt r.2 with pp_free := true }).pageAt r.2) =
      { r.1.pageAt r.2 with pp_free := true } := by
    rw [pageAt_setPage, if_pos (And.intro rfl hqlen)]
  constructor
  · rw [pageAt_list_add, hps]
  · rw [pageAt_list_add, hps]
    set s2 := r.1.setPage r.2 { r.1.pageAt r.2 with pp_free := true } with hs2
    have hmem : (s2.list_add ((s2.pageAt r.2).pp_order) r.2).listAt
        ((s2.pageAt r.2).pp_order) = r.2 :: s2.listAt ((s2.pageAt r.2).pp_order) := by
      unfold BuddyState.list_add
      apply listAt_setList_self
      rcases Nat.lt_or_ge ((s2.pageAt r.2).pp_order) BUDDY_MAX_ORDER with ho | ho
      · left
        rw [hs2, flLength_setPage, hl2, hwf]
        exact ho
      · right
        exact ho
    rw [hps] at hmem
    rw [hmem]
    exact List.mem_cons_self _ _

/-! ### Remaining small helpers -/

theorem listAt_ge (s : BuddyState) (k : Nat) (h : BUDDY_MAX_ORDER ≤ k) :
    s.listAt k = s.oob := by
  unfold BuddyState.listAt
  rw [if_neg (by omega)]

/-- If every valid free list and the out-of-bounds cell are empty, the
search loop walks to the end and reports exhaustion without touching the
state. -/
theorem buddy_find_loop_empty : ∀ (fuel : Nat) (s : BuddyState) (order req : Nat),
    (∀ k, k < BUDDY_MAX_ORDER → s.listAt k = []) → s.oob = [] →
    buddy_find_loop fuel s order req = (s, none) := by
  intro fuel
  induction fuel with
  | zero => intro s order req _ _; rfl
  | succ fuel ih =>
    intro s order req h1 h2
    simp only [buddy_find_loop]
    by_cases hc : order ≤ BUDDY_MAX_ORDER
    · rw [if_pos hc]
      have hl : s.listAt order = [] := by
        by_cases ho : order < BUDDY_MAX_ORDER
        · exact h1 order ho
        · rw [listAt_ge s order (by omega)]
          exact h2
      simp only [hl]
      exact ih s (order + 1) req h1 h2
    · rw [if_neg hc]

theorem buddy_find_none (s : BuddyState) (req : Nat)
    (h : (buddy_find s req).2 = none) : (buddy_find s req).1 = s :=
  buddy_find_loop_none _ s req req h

theorem memset_zero (m : Mem) (start len a : Nat) (h1 : start ≤ a)
    (h2 : a < start + len) : memset m start 0 len a = 0 := by
  unfold memset
  rw [if_pos (And.intro h1 h2)]

/-! ### Claim theorems -/

/-- C1.  The free-list exactness invariant is broken by the code: from a
state satisfying it (one order-0 page, free, linked in list 0),
`buddy_find` at the exact order pops the page but leaves its free flag
set (the clearing statement is commented out in the source), so the
returned page is still flagged free while linked in no list. -/
theorem buddy_find_exact_hit_keeps_free_flag :
    (buddy_find stOnePage 0).2 = some 0
    ∧ (((buddy_find stOnePage 0).1).pageAt 0).pp_free = true
    ∧ (∀ k, k ≤ BUDDY_MAX_ORDER → 0 ∉ ((buddy_find stOnePage 0).1).listAt k) := by
  decide

/-- C2.  `buddy_find` reads one entry past the free-list array: on two
states with identical descriptor tables and identical free lists, all
empty, differing only in the storage just past the array, the result of
`buddy_find` differs, and with garbage there it returns a block instead
of reporting exhaustion. -/
theorem buddy_find_reads_past_array :
    stBareA.pages = stBareB.pages
    ∧ stBareA.buddy_free_list = stBareB.buddy_free_list
    ∧ (buddy_find stBareA 0).2 = none
    ∧ (buddy_find stBareB 0).2 = some 7 := by
  decide

/-- C6.  Contract violations do not abort: decrementing a reference count
that is already zero wraps the unsigned counter to 0xFFFF and returns
silently without freeing, and requesting an order past the maximum
silently returns no block with the state unchanged; no path panics. -/
theorem contract_violation_decref_zero_silent :
    page_decref stRefZero 0 =
      ⟨[⟨65535, 0, false⟩], List.replicate 10 [], []⟩
    ∧ (buddy_find stRefZero (BUDDY_MAX_ORDER + 1)).2 = none
    ∧ (buddy_find stRefZero (BUDDY_MAX_ORDER + 1)).1 = stRefZero := by
  decide

/-- C8.  Buddy conservation is broken by the stale free flag: from a
conservative state with one free order-0 page (count 1), allocating it by
an exact-order hit leaves its free flag set (count 0); releasing its
still-allocated buddy then merges with the stale page, and the free count
jumps from 0 to 2 for an order-0 release, counting the caller-held page 2
as free inside the new order-1 block. -/
theorem conservation_broken_by_stale_flag :
    count_total_free_pages stCons = 1
    ∧ (buddy_find stCons 0).2 = some 2
    ∧ count_total_free_pages (buddy_find stCons 0).1 = 0
    ∧ count_total_free_pages (page_decref (buddy_find stCons 0).1 3) = 2
    ∧ (page_decref (buddy_find stCons 0).1 3).buddy_free_list
        = [[], [2], [], [], [], [], [], [], [], []]
    ∧ ((page_decref (buddy_find stCons 0).1 3).pageAt 2).pp_free = true := by
  decide

/-- C3, counterexample.  Two true buddy pages (2 and 3: addresses differ
by `PAGE_SIZE`, the lower one 2-page aligned) are allocated individually
and then both released, yet the final state holds two separate entries 3
and 2 in free list 1 instead of one merged order-1 block: the stale free
flag of the exact-hit allocation makes the first release merge with the
still-allocated buddy. -/
theorem alloc_pair_release_leaves_two_blocks :
    page2pa 3 = page2pa 2 + PAGE_SIZE
    ∧ 2 * PAGE_SIZE ∣ page2pa 2
    ∧ (page_alloc stPair mem0 0).2.2 = some 2
    ∧ (page_alloc (page_alloc stPair mem0 0).1 mem0 0).2.2 = some 3
    ∧ (page_free (page_free
        (page_alloc (page_alloc stPair mem0 0).1 mem0 0).1 2) 3).buddy_free_list
        = [[], [3, 2], [], [], [], [], [], [], [], []] := by
  decide

/-- C7, counterexample.  With every free list empty but non-empty garbage
in the storage just past the free-list array, `page_alloc` does not
return the exhaustion result: it pops the garbage entry and mutates the
state, because of the out-of-bounds probe in `buddy_find`. -/
theorem exhausted_alloc_reads_garbage :
    (∀ k, k < BUDDY_MAX_ORDER → stGhost.listAt k = [])
    ∧ (page_alloc stGhost mem0 0).2.2 = some 5
    ∧ (page_alloc stGhost mem0 0).1 ≠ stGhost := by
  decide

/-- C3, amended.  The merge engine behaves as specified when the released
pages carry clean flags: for any state and managed page, the surviving
page of `buddy_merge` is marked free and inserted into the free list at
its final recorded order; and in an arena of eight allocated order-0
pages with clear free flags, releasing any two distinct pages yields one
merged order-1 block exactly when they are true buddies (addresses differ
by `PAGE_SIZE` and the lower is 2-page aligned), and two separate order-0
entries otherwise.  The unrestricted claim fails on the code because an
exact-order `buddy_find` leaves a stale free flag (see the
counterexample). -/
theorem buddy_merge_clean_release :
    (∀ (s : BuddyState) (page : Nat), page < s.pages.length →
      s.buddy_free_list.length = BUDDY_MAX_ORDER →
      (((buddy_merge s page).1).pageAt (buddy_merge s page).2).pp_free = true
      ∧ (buddy_merge s page).2 ∈
          ((buddy_merge s page).1).listAt
            ((((buddy_merge s page).1).pageAt (buddy_merge s page).2).pp_order))
    ∧ (∀ i, i < 8 → ∀ j, j < 8 → i ≠ j →
        (page2pa (max i j) = page2pa (min i j) + PAGE_SIZE
          ∧ 2 * PAGE_SIZE ∣ page2pa (min i j)) →
        (page_free (page_free stArena i) j).listAt 1 = [min i j]
        ∧ (page_free (page_free stArena i) j).listAt 0 = [])
    ∧ (∀ i, i < 8 → ∀ j, j < 8 → i ≠ j →
        ¬ (page2pa (max i j) = page2pa (min i j) + PAGE_SIZE
          ∧ 2 * PAGE_SIZE ∣ page2pa (min i j)) →
        (page_free (page_free stArena i) j).listAt 0 = [j, i]
        ∧ (page_free (page_free stArena i) j).listAt 1 = []) := by
  refine ⟨fun s page h1 h2 => buddy_merge_result_free_listed s page h1 h2, ?_, ?_⟩
  · decide
  · decide

/-- Witness for C3: the general conjunct applied to the concrete one-page
state. -/
theorem buddy_merge_clean_release_witness :
    0 < stOnePage.pages.length
    ∧ stOnePage.buddy_free_list.length = BUDDY_MAX_ORDER
    ∧ (((buddy_merge stOnePage 0).1).pageAt (buddy_merge stOnePage 0).2).pp_free = true :=
  ⟨by decide, by decide,
    (buddy_merge_clean_release.1 stOnePage 0 (by decide) (by decide)).1⟩

/-- C4.  The split engine is correct: for any managed block out of every
free list whose recorded order exceeds the target, `buddy_split` returns
that very block with recorded order exactly the target, not free, and
still in no free list; and starting from one free order-3 block, an
order-0 `buddy_find` leaves exactly one entry in each of free lists 2, 1
and 0, all other lists empty, returning the order-0 base page not free. -/
theorem buddy_split_engine_correct :
    (∀ (s : BuddyState) (lhs req_order : Nat), lhs < s.pages.length →
      req_order < (s.pageAt lhs).pp_order →
      (∀ k, k ≤ BUDDY_MAX_ORDER → lhs ∉ s.listAt k) →
      (buddy_split s lhs req_order).2 = lhs
      ∧ (((buddy_split s lhs req_order).1).pageAt lhs).pp_order = req_order
      ∧ (((buddy_split s lhs req_order).1).pageAt lhs).pp_free = false
      ∧ (∀ k, k ≤ BUDDY_MAX_ORDER →
          lhs ∉ ((buddy_split s lhs req_order).1).listAt k))
    ∧ ((buddy_find stSeed 0).2 = some 0
      ∧ ((buddy_find stSeed 0).1).buddy_free_list
          = [[1], [2], [4], [], [], [], [], [], [], []]
      ∧ (((buddy_find stSeed 0).1).pageAt 0).pp_order = 0
      ∧ (((buddy_find stSeed 0).1).pageAt 0).pp_free = false) := by
  constructor
  · intro s lhs req_order hlen hreq hnot
    have hall : ∀ k, lhs ∉ s.listAt k := by
      intro k
      by_cases hk : k ≤ BUDDY_MAX_ORDER
      · exact hnot k hk
      · rw [listAt_ge s k (by omega)]
        have := hnot BUDDY_MAX_ORDER (Nat.le_refl _)
        rw [listAt_ge s BUDDY_MAX_ORDER (Nat.le_refl _)] at this
        exact this
    unfold buddy_split
    obtain ⟨hl, hord, hfree, _, hmem⟩ :=
      buddy_split_loop_main ((s.pageAt lhs).pp_order) s lhs req_order
        (by omega) (by omega)
    refine ⟨buddy_split_loop_snd _ s lhs req_order, hord, hfree hreq, ?_⟩
    intro k _
    exact hmem k (hall k)
  · exact ⟨by decide, by decide, by decide, by decide⟩

/-- Witness for C4: the general conjunct applied to a two-page order-1
block split down to order 0. -/
theorem buddy_split_engine_correct_witness :
    0 < stBlock.pages.length
    ∧ 0 < (stBlock.pageAt 0).pp_order
    ∧ (buddy_split stBlock 0 0).2 = 0
    ∧ (((buddy_split stBlock 0 0).1).pageAt 0).pp_order = 0 := by
  refine ⟨by decide, by decide, ?_, ?_⟩
  · exact (buddy_split_engine_correct.1 stBlock 0 0 (by decide) (by decide)
      (by decide)).1
  · exact (buddy_split_engine_correct.1 stBlock 0 0 (by decide) (by decide)
      (by decide)).2.1

/-- C5.  The `page_alloc` contract: the huge-page order is requested when
the huge flag is set and the base order otherwise, with the result of
`buddy_find` returned unchanged (so the null result is exactly
exhaustion); on success the reference count of the returned page is
untouched, and when the zero flag is set every byte of the
`PAGE_SIZE << pp_order` span of the returned block reads zero; on
exhaustion descriptor state and memory are untouched. -/
theorem page_alloc_honors_contract (s : BuddyState) (m : Mem) (flags : Nat) :
    (page_alloc s m flags).2.2 =
      (buddy_find s (if flags &&& ALLOC_HUGE ≠ 0 then BUDDY_2M_PAGE
        else BUDDY_4K_PAGE)).2
    ∧ (∀ p, (page_alloc s m flags).2.2 = some p →
        (((page_alloc s m flags).1).pageAt p).pp_ref = (s.pageAt p).pp_ref
        ∧ (flags &&& ALLOC_ZERO ≠ 0 → ∀ a, page2kva p ≤ a →
            a < page2kva p +
              (PAGE_SIZE <<< ((((page_alloc s m flags).1).pageAt p).pp_order)) →
            ((page_alloc s m flags).2.1) a = 0))
    ∧ ((page_alloc s m flags).2.2 = none →
        (page_alloc s m flags).1 = s ∧ (page_alloc s m flags).2.1 = m) := by
  set ord := if flags &&& ALLOC_HUGE ≠ 0 then BUDDY_2M_PAGE else BUDDY_4K_PAGE
    with hord
  rcases hf : (buddy_find s ord).2 with _ | page
  · have he : page_alloc s m flags = ((buddy_find s ord).1, m, none) := by
      simp only [page_alloc, ← hord, hf]
    rw [he]
    refine ⟨rfl, ?_, ?_⟩
    · intro p hp
      exact Option.noConfusion hp
    · intro _
      exact ⟨buddy_find_none s _ hf, rfl⟩
  · by_cases hz : flags &&& ALLOC_ZERO ≠ 0
    · have he : page_alloc s m flags =
          ((buddy_find s ord).1,
            memset m (page2kva page) 0
              (PAGE_SIZE <<< (((buddy_find s ord).1).pageAt page).pp_order),
            some page) := by
        simp only [page_alloc, ← hord, hf]
        rw [if_pos hz]
      rw [he]
      refine ⟨rfl, ?_, ?_⟩
      · intro p hp
        have hpp : page = p := by
          simpa using hp
        subst hpp
        refine ⟨buddy_find_ref s _ page, ?_⟩
        intro _ a h1 h2
        exact memset_zero m (page2kva page) _ a h1 h2
      · intro hn
        exact Option.noConfusion hn
    · have he : page_alloc s m flags = ((buddy_find s ord).1, m, some page) := by
        simp only [page_alloc, ← hord, hf]
        rw [if_neg hz]
      rw [he]
      refine ⟨rfl, ?_, ?_⟩
      · intro p hp
        have hpp : page = p := by
          simpa using hp
        subst hpp
        refine ⟨buddy_find_ref s _ page, ?_⟩
        intro hz'
        exact absurd hz' hz
      · intro hn
        exact Option.noConfusion hn

/-- Witness for C5: allocating the single free page with the zero flag
returns it, keeps its reference count, and byte 100 of its span reads
zero. -/
theorem page_alloc_honors_contract_witness :
    (page_alloc stOnePage mem0 1).2.2 = some 0
    ∧ (((page_alloc stOnePage mem0 1).1).pageAt 0).pp_ref
        = (stOnePage.pageAt 0).pp_ref
    ∧ ((page_alloc stOnePage mem0 1).2.1) 100 = 0 := by
  have h := page_alloc_honors_contract stOnePage mem0 1
  refine ⟨by decide, ?_, ?_⟩
  · exact (h.2.1 0 (by decide)).1
  · exact (h.2.1 0 (by decide)).2 (by decide) 100 (by decide) (by decide)

/-- C7, amended.  When every free list is empty and the storage just past
the free-list array also reads as an empty list, `page_alloc` with any
flags returns the exhaustion result and leaves every descriptor, every
free list and the memory untouched, so repeated calls are identical; the
proviso on the out-of-bounds cell is forced by the off-by-one probe in
`buddy_find` (see the counterexample). -/
theorem exhausted_alloc_idempotent (s : BuddyState) (m : Mem) (flags : Nat)
    (h1 : ∀ k, k < BUDDY_MAX_ORDER → s.listAt k = [])
    (h2 : s.oob = []) :
    page_alloc s m flags = (s, m, none) := by
  have hfind : ∀ req, buddy_find s req = (s, none) := fun req =>
    buddy_find_loop_empty _ s req req h1 h2
  simp only [page_alloc, hfind]

/-- Witness for C7: the amended statement at the all-allocated arena. -/
theorem exhausted_alloc_idempotent_witness :
    (∀ k, k < BUDDY_MAX_ORDER → stArena.listAt k = [])
    ∧ stArena.oob = []
    ∧ page_alloc stArena mem0 2 = (stArena, mem0, none) :=
  ⟨by decide, by decide,
    exhausted_alloc_idempotent stArena mem0 2 (by decide) (by decide)⟩

/-- C9.  The merge loop terminates within `BUDDY_MAX_ORDER` iterations:
giving it any fuel beyond `BUDDY_MAX_ORDER` changes nothing, and as soon
as the working order reaches `BUDDY_MAX_ORDER` the loop exits with the
state unchanged. -/
theorem buddy_merge_bounded_iterations (s : BuddyState) (page : Nat)
    (_h : (s.pageAt page).pp_order < BUDDY_MAX_ORDER) :
    (∀ extra, buddy_merge_loop (BUDDY_MAX_ORDER + extra) s page
        ((s.pageAt page).pp_order)
        = buddy_merge_loop BUDDY_MAX_ORDER s page ((s.pageAt page).pp_order))
    ∧ (∀ fuel order, BUDDY_MAX_ORDER ≤ order →
        buddy_merge_loop fuel s page order = (s, page)) := by
  refine ⟨fun extra => buddy_merge_loop_fuel_stable s page _ extra,
    fun fuel order ho => buddy_merge_loop_exit fuel s page order ho⟩

/-- Witness for C9: the bound at the concrete one-page state. -/
theorem buddy_merge_bounded_iterations_witness :
    (stOnePage.pageAt 0).pp_order < BUDDY_MAX_ORDER
    ∧ buddy_merge_loop (BUDDY_MAX_ORDER + 3) stOnePage 0
        ((stOnePage.pageAt 0).pp_order)
      = buddy_merge_loop BUDDY_MAX_ORDER stOnePage 0
        ((stOnePage.pageAt 0).pp_order) :=
  ⟨by decide, (buddy_merge_bounded_iterations stOnePage 0 (by decide)).1 3⟩

/-- C10.  `buddy_split` always returns the very descriptor it was given,
and for a block whose base is aligned to its recorded order every buddy
emitted into a free list during the split is the higher-addressed half of
its pair, namely `lhs + 2 ^ j` pushed onto free list `j`. -/
theorem buddy_split_returns_given_descriptor :
    (∀ (s : BuddyState) (lhs req_order : Nat),
      (buddy_split s lhs req_order).2 = lhs)
    ∧ (∀ (s : BuddyState) (lhs req_order : Nat), lhs < s.pages.length →
        s.buddy_free_list.length = BUDDY_MAX_ORDER →
        (s.pageAt lhs).pp_order ≤ BUDDY_MAX_ORDER →
        2 ^ (s.pageAt lhs).pp_order ∣ lhs →
        req_order < (s.pageAt lhs).pp_order →
        ∀ j, req_order ≤ j → j < (s.pageAt lhs).pp_order →
          ((buddy_split s lhs req_order).1).listAt j
            = (lhs + 2 ^ j) :: s.listAt j
          ∧ lhs < lhs + 2 ^ j) := by
  constructor
  · intro s lhs req_order
    exact buddy_split_loop_snd _ s lhs req_order
  · intro s lhs req_order _ hwf hmax hdvd hreq j hj1 hj2
    unfold buddy_split
    obtain ⟨hmod, _⟩ := buddy_split_loop_lists ((s.pageAt lhs).pp_order) s lhs
      req_order (by omega) (by omega) hmax hwf hdvd
    refine ⟨hmod j hj1 hj2, ?_⟩
    have hp : 0 < 2 ^ j := pow_pos (by norm_num) j
    omega

/-- Witness for C10: splitting the two-page block at base 0 emits its
higher half, page 1, into free list 0. -/
theorem buddy_split_returns_given_descriptor_witness :
    0 < stBlock.pages.length
    ∧ 2 ^ (stBlock.pageAt 0).pp_order ∣ 0
    ∧ ((buddy_split stBlock 0 0).1).listAt 0 = (0 + 2 ^ 0) :: stBlock.listAt 0 := by
  refine ⟨by decide, by decide, ?_⟩
  exact (buddy_split_returns_given_descriptor.2 stBlock 0 0 (by decide)
    (by decide) (by decide) (by decide) (by decide) 0 (by decide) (by decide)).1
